import Mathlib

/-!
Verification development for the JVMTI breakpoint / deferred-event core of
`src/hotspot/share/prims/jvmtiImpl.hpp`.

The repository exposes the header only: inline members (GrowableArray-based
`find` / `append` / `remove` of `JvmtiBreakpoints`, the `JvmtiDeferredEvent`
tagged union, `QueueNode`, the queue constructor) are embedded from the
source; out-of-line bodies (`set` / `clear` / `clearall_in_class_at_safepoint`,
the local-variable type checks, `enqueue` / `dequeue` / `post`, the event
factories) are modelled from the specification, as marked on each definition.
-/

/-- Identity of a `Method*`: the declaring class (`Klass*` identity) and a
per-method identity. Two `Method*` values are the same method iff the pointers
are equal, which this value equality models. -/
structure Method where
  klass : Nat
  mid : Nat
deriving DecidableEq, Repr

/-- `JvmtiBreakpoint`: a location (class, method, bci) to break at, with the
`_class_holder` handle that keeps the method's memory from being deallocated. -/
structure JvmtiBreakpoint where
  method : Method
  bci : Int
  class_holder : Nat
deriving DecidableEq, Repr

/-- Modelled from the spec: the `JvmtiBreakpoint(Method*, jlocation)`
constructor (body not in the header) stores the method and offset and takes a
keep-alive handle on the declaring class. -/
def JvmtiBreakpoint.mkBp (m : Method) (location : Int) : JvmtiBreakpoint :=
  { method := m, bci := location, class_holder := m.klass }

/-- Modelled from the spec: `JvmtiBreakpoint::equals` (body not in the header);
two breakpoints are equal iff same method identity and same offset. -/
def JvmtiBreakpoint.equals (a b : JvmtiBreakpoint) : Bool :=
  a.method == b.method && a.bci == b.bci

/-- The (method identity, byte offset) pair that determines breakpoint
equality. -/
def JvmtiBreakpoint.key (a : JvmtiBreakpoint) : Method × Int :=
  (a.method, a.bci)

/-- `GrowableArray::find_if`: index of the first element satisfying the
predicate, or -1 when none does. -/
def find_if (p : α → Bool) : List α → Int
  | [] => -1
  | a :: l =>
    if p a then 0
    else
      let r := find_if p l
      if r < 0 then -1 else r + 1

/-- `JvmtiBreakpoints`: growable array of `JvmtiBreakpoint`; all changes
occur at a safepoint. -/
structure JvmtiBreakpoints where
  elements : List JvmtiBreakpoint
deriving DecidableEq, Repr

/-- `JvmtiBreakpoints::length`. -/
def JvmtiBreakpoints.length (bps : JvmtiBreakpoints) : Nat :=
  bps.elements.length

/-- `JvmtiBreakpoints::find`: `_elements.find_if([&](other_e) { return
e.equals(*other_e); })`. -/
def JvmtiBreakpoints.find (bps : JvmtiBreakpoints) (e : JvmtiBreakpoint) : Int :=
  find_if (fun other_e => e.equals other_e) bps.elements

/-- `JvmtiBreakpoints::append`: copy the breakpoint and append it to the
array. -/
def JvmtiBreakpoints.append (bps : JvmtiBreakpoints) (e : JvmtiBreakpoint) :
    JvmtiBreakpoints :=
  { elements := bps.elements ++ [e] }

/-- `JvmtiBreakpoints::remove`: delete the element at the given index
(`GrowableArray::remove_at`). -/
def JvmtiBreakpoints.removeAt (bps : JvmtiBreakpoints) (index : Nat) :
    JvmtiBreakpoints :=
  { elements := bps.elements.eraseIdx index }

/-- The registry as lazily created by
`JvmtiCurrentBreakpoints::get_jvmti_breakpoints`: empty. -/
def emptyBreakpoints : JvmtiBreakpoints := { elements := [] }

/-- Status a registry mutation reports back, in the spec's words: "changed",
"not changed" (SET of a present breakpoint), "not found" (CLEAR of an absent
one). -/
inductive BpResult where
  | changed
  | notChanged
  | notFound
deriving DecidableEq, Repr

/-- Modelled from the spec: `JvmtiBreakpoints::set` /
`set_at_safepoint` (bodies not in the header): if an equal breakpoint already
exists, return a "not changed" status without modifying anything; otherwise
insert and return "changed". Arming the method versions is a runtime side
effect outside the registry. -/
def JvmtiBreakpoints.set (bps : JvmtiBreakpoints) (bp : JvmtiBreakpoint) :
    BpResult × JvmtiBreakpoints :=
  if bps.find bp ≥ 0 then (.notChanged, bps)
  else (.changed, bps.append bp)

/-- Modelled from the spec: `JvmtiBreakpoints::clear` /
`clear_at_safepoint` (bodies not in the header): if an equal breakpoint
exists, remove it and return "changed"; if absent, return "not found". -/
def JvmtiBreakpoints.clear (bps : JvmtiBreakpoints) (bp : JvmtiBreakpoint) :
    BpResult × JvmtiBreakpoints :=
  let index := bps.find bp
  if index < 0 then (.notFound, bps)
  else (.changed, bps.removeAt index.toNat)

/-- Modelled from the spec:
`JvmtiBreakpoints::clearall_in_class_at_safepoint` (body not in the header):
remove every breakpoint whose owning method belongs to the given class. -/
def JvmtiBreakpoints.clearall_in_class_at_safepoint
    (bps : JvmtiBreakpoints) (klass : Nat) : JvmtiBreakpoints :=
  { elements := bps.elements.filter (fun bp => bp.method.klass ≠ klass) }

/-- A SET or CLEAR request, as wrapped by `VM_ChangeBreakpoints`
(`SET_BREAKPOINT` / `CLEAR_BREAKPOINT`). -/
inductive BpOp where
  | setOp (bp : JvmtiBreakpoint)
  | clearOp (bp : JvmtiBreakpoint)
deriving DecidableEq, Repr

/-- `VM_ChangeBreakpoints::doit`: dispatch one operation to the registry. -/
def applyBpOp (bps : JvmtiBreakpoints) (op : BpOp) : JvmtiBreakpoints :=
  match op with
  | .setOp bp => (bps.set bp).2
  | .clearOp bp => (bps.clear bp).2

/-- Replay a sequence of SET/CLEAR operations on the registry. -/
def applyBpOps (ops : List BpOp) (bps : JvmtiBreakpoints) : JvmtiBreakpoints :=
  ops.foldl applyBpOp bps

/-- One SET or CLEAR replayed on an ordinary mathematical set whose elements
are (method identity, byte offset) pairs. -/
def replayBpOp (s : Finset (Method × Int)) (op : BpOp) : Finset (Method × Int) :=
  match op with
  | .setOp bp => insert bp.key s
  | .clearOp bp => s.erase bp.key

/-- Replay a sequence on the mathematical set. -/
def replayBpOps (ops : List BpOp) (s : Finset (Method × Int)) :
    Finset (Method × Int) :=
  ops.foldl replayBpOp s

/-- Registry operations including the class-redefinition hook. -/
inductive RegOp where
  | rSet (bp : JvmtiBreakpoint)
  | rClear (bp : JvmtiBreakpoint)
  | rClearAll (klass : Nat)
deriving DecidableEq, Repr

/-- Apply one registry operation. -/
def applyRegOp (bps : JvmtiBreakpoints) (op : RegOp) : JvmtiBreakpoints :=
  match op with
  | .rSet bp => (bps.set bp).2
  | .rClear bp => (bps.clear bp).2
  | .rClearAll k => bps.clearall_in_class_at_safepoint k

/-- Apply a sequence of registry operations. -/
def applyRegOps (ops : List RegOp) (bps : JvmtiBreakpoints) : JvmtiBreakpoints :=
  ops.foldl applyRegOp bps

/-- The registry invariant: no two elements compare equal. -/
def BpInv (bps : JvmtiBreakpoints) : Prop :=
  bps.elements.Pairwise (fun a b => a.equals b = false)

/-! ### Frame-local access (`VM_BaseGetOrSetLocal`) -/

/-- The `BasicType` kinds a local-variable slot or a `jvalue` can have. -/
inductive BasicType where
  | T_BOOLEAN
  | T_CHAR
  | T_FLOAT
  | T_DOUBLE
  | T_BYTE
  | T_SHORT
  | T_INT
  | T_LONG
  | T_OBJECT
deriving DecidableEq, Repr

/-- A `jvalue`: one member of the union, tagged. Floating payloads are kept
as raw bit patterns (they are only stored and copied here, never computed
with). A reference value carries the runtime class of the object and an
object identity; `jNull` is the null reference. -/
inductive JValue where
  | jBool (v : Bool)
  | jByte (v : Int)
  | jChar (v : Nat)
  | jShort (v : Int)
  | jInt (v : Int)
  | jLong (v : Int)
  | jFloat (bits : Nat)
  | jDouble (bits : Nat)
  | jObject (cls : Nat) (oid : Nat)
  | jNull
deriving DecidableEq, Repr

/-- The kind of a `jvalue`. -/
def JValue.kind : JValue → BasicType
  | .jBool _ => .T_BOOLEAN
  | .jByte _ => .T_BYTE
  | .jChar _ => .T_CHAR
  | .jShort _ => .T_SHORT
  | .jInt _ => .T_INT
  | .jLong _ => .T_LONG
  | .jFloat _ => .T_FLOAT
  | .jDouble _ => .T_DOUBLE
  | .jObject _ _ => .T_OBJECT
  | .jNull => .T_OBJECT

/-- The verifier-declared type of a slot, as recorded in the local variable
table: either a primitive kind or a reference type named by its signature. -/
inductive SlotDecl where
  | primDecl (t : BasicType)
  | refDecl (ty_sign : String)
deriving DecidableEq, Repr

/-- The `BasicType` kind a declared slot type implies. -/
def SlotDecl.kind : SlotDecl → BasicType
  | .primDecl t => t
  | .refDecl _ => .T_OBJECT

/-- One numbered local-variable slot: its declared type and current value. -/
structure Slot where
  decl : SlotDecl
  value : JValue
deriving DecidableEq, Repr

/-- A materialized, slot-addressable frame (`javaVFrame` after any needed
deoptimization): its local-variable slots. -/
structure Frame where
  slots : List Slot
deriving DecidableEq, Repr

/-- The type-resolution / assignability service the operation consumes:
resolution of a signature to a class (may fail, e.g. class not loadable) and
the `instanceof`-style assignability relation between classes. -/
structure TypeEnv where
  resolve : String → Option Nat
  assignable : Nat → Nat → Bool

/-- Modelled from the spec: `VM_BaseGetOrSetLocal::is_assignable` (body not
in the header): resolve the signature's class, loading it if necessary, and
report whether the klass is assignable to it; resolution failure reports
not-assignable. -/
def is_assignable (env : TypeEnv) (ty_sign : String) (klass : Nat) : Bool :=
  match env.resolve ty_sign with
  | some k => env.assignable klass k
  | none => false

/-- The JVMTI error codes the local-access claims mention. -/
inductive JvmtiError where
  | NONE
  | INVALID_SLOT
  | TYPE_MISMATCH
  | INVALID_CLASS
deriving DecidableEq, Repr

/-- Check a new value of requested kind `ty` against one declared slot type:
primitive kinds must match the declared kind exactly (no implicit
widening/narrowing); a reference slot requires the new object's runtime class
to be assignment-compatible with the declared type (failure to resolve, or an
incompatible class, is the invalid-class error); null is assignable to any
reference type. -/
def checkDecl (env : TypeEnv) (decl : SlotDecl) (ty : BasicType)
    (v : JValue) : JvmtiError :=
  match decl with
  | .primDecl t => if ty = t ∧ v.kind = t then .NONE else .TYPE_MISMATCH
  | .refDecl ty_sign =>
    if ty ≠ .T_OBJECT then .TYPE_MISMATCH
    else
      match v with
      | .jObject cls _ =>
        if is_assignable env ty_sign cls then .NONE else .INVALID_CLASS
      | .jNull => .NONE
      | _ => .TYPE_MISMATCH

/-- Modelled from the spec: `VM_BaseGetOrSetLocal::check_slot_type_lvt` (body
not in the header) for a write: look up the slot's verifier-declared type in
the local variable table (an index with no slot is an invalid-slot error) and
check the new value against it per `checkDecl`. -/
def check_slot_type_lvt (env : TypeEnv) (fr : Frame) (index : Nat)
    (ty : BasicType) (v : JValue) : JvmtiError :=
  match fr.slots.get? index with
  | none => .INVALID_SLOT
  | some slot => checkDecl env slot.decl ty v

/-- `VM_BaseGetOrSetLocal::_DEFAULT_VALUE`: the zeroed `jvalue` a failed get
leaves in `_value`. -/
def DEFAULT_VALUE : JValue := .jNull

/-- Modelled from the spec: the write path of `VM_BaseGetOrSetLocal::doit`
(body not in the header): validate the new value against the slot's declared
type; on success store it into the frame's slot, on any error leave the slot's
prior value unmodified and report the error. -/
def setLocal (env : TypeEnv) (fr : Frame) (index : Nat) (ty : BasicType)
    (v : JValue) : JvmtiError × Frame :=
  match fr.slots.get? index with
  | none => (.INVALID_SLOT, fr)
  | some slot =>
    let e := check_slot_type_lvt env fr index ty v
    if e = .NONE then
      (.NONE, { slots := fr.slots.set index { slot with value := v } })
    else (e, fr)

/-- Modelled from the spec: the read path of `VM_BaseGetOrSetLocal::doit`
(body not in the header): check the requested kind against the slot's
declared kind, then copy the current slot value into the result. -/
def getLocal (fr : Frame) (index : Nat) (ty : BasicType) :
    JvmtiError × JValue :=
  match fr.slots.get? index with
  | none => (.INVALID_SLOT, DEFAULT_VALUE)
  | some slot =>
    if slot.decl.kind = ty then (.NONE, slot.value)
    else (.TYPE_MISMATCH, DEFAULT_VALUE)

/-! ### Deferred events (`JvmtiDeferredEvent`, `JvmtiDeferredEventQueue`) -/

/-- `JvmtiDeferredEvent`: the `Type` tag together with the matching member
of the `_event_data` union. The unload case carries the `jmethodID` and the
code's starting address captured at construction; the load case carries the
`nmethod` identity. -/
inductive JvmtiDeferredEvent where
  | typeNone
  | compiledMethodLoad (nm : Nat)
  | compiledMethodUnload (method_id : Nat) (code_begin : Nat)
  | dynamicCodeGenerated (name : String) (code_begin : Nat) (code_end : Nat)
  | classUnload (name : String)
deriving DecidableEq, Repr

/-- Modelled from the spec: the `compiled_method_load_event` factory (body
not in the header): capture the nmethod reference. -/
def compiled_method_load_event (nm : Nat) : JvmtiDeferredEvent :=
  .compiledMethodLoad nm

/-- Modelled from the spec: the `compiled_method_unload_event` factory (body
not in the header): capture the stable method identifier and the code's
starting address, since the code object itself may already be gone by post
time. -/
def compiled_method_unload_event (id : Nat) (code : Nat) : JvmtiDeferredEvent :=
  .compiledMethodUnload id code

/-- Modelled from the spec: the `dynamic_code_generated_event` factory (body
not in the header). -/
def dynamic_code_generated_event (name : String) (code_begin code_end : Nat) :
    JvmtiDeferredEvent :=
  .dynamicCodeGenerated name code_begin code_end

/-- Modelled from the spec: the `class_unload_event` factory (body not in
the header). -/
def class_unload_event (name : String) : JvmtiDeferredEvent :=
  .classUnload name

/-- The agent callback invocation one posted event reconstructs. -/
inductive PostedCallback where
  | cbNone
  | cbCompiledMethodLoad (nm : Nat) (codeInfo : Nat)
  | cbCompiledMethodUnload (method_id : Nat) (code_begin : Nat)
  | cbDynamicCodeGenerated (name : String) (code_begin : Nat) (code_end : Nat)
  | cbClassUnload (name : String)
deriving DecidableEq, Repr

/-- Modelled from the spec: `JvmtiDeferredEvent::post` (body not in the
header), against a code heap mapping a live nmethod identity to its details.
Posting a compiled-method-load event reads the code object (so it must still
be alive, `none` if reclaimed); posting an unload event uses only the method
identifier and starting address captured at construction and never
dereferences the code object. -/
def postEvent (heap : Nat → Option Nat) (ev : JvmtiDeferredEvent) :
    Option PostedCallback :=
  match ev with
  | .typeNone => some .cbNone
  | .compiledMethodLoad nm => (heap nm).map (fun info => .cbCompiledMethodLoad nm info)
  | .compiledMethodUnload id code => some (.cbCompiledMethodUnload id code)
  | .dynamicCodeGenerated name b e => some (.cbDynamicCodeGenerated name b e)
  | .classUnload name => some (.cbClassUnload name)

/-- `JvmtiDeferredEventQueue::QueueNode`: an event and a link to the next
node (a node identity in the store, null when last). -/
structure QueueNode where
  event : JvmtiDeferredEvent
  next : Option Nat
deriving DecidableEq, Repr

/-- `JvmtiDeferredEventQueue`: `_queue_head` / `_queue_tail` pointers into a
store of heap-allocated nodes, each named by the identity it was allocated
with (`nextId` is the next fresh identity). -/
structure JvmtiDeferredEventQueue where
  store : List (Nat × QueueNode)
  nextId : Nat
  queue_head : Option Nat
  queue_tail : Option Nat
deriving DecidableEq, Repr

/-- The queue constructor: `_queue_head(nullptr), _queue_tail(nullptr)`. -/
def emptyQueue : JvmtiDeferredEventQueue :=
  { store := [], nextId := 0, queue_head := none, queue_tail := none }

/-- Dereference a node pointer in the store. -/
def lookupNode (store : List (Nat × QueueNode)) (i : Nat) : Option QueueNode :=
  (store.find? (fun p => p.1 = i)).map Prod.snd

/-- `QueueNode::set_next` on the node named `i` in the store. -/
def setNext (store : List (Nat × QueueNode)) (i : Nat) (nxt : Option Nat) :
    List (Nat × QueueNode) :=
  store.map (fun p => if p.1 = i then (p.1, { p.2 with next := nxt }) else p)

/-- Modelled from the spec: `JvmtiDeferredEventQueue::enqueue` (body not in
the header): allocate a node for the event; if the tail is null the queue was
empty and head and tail both become the new node, otherwise link the new node
after the tail and move the tail to it. -/
def JvmtiDeferredEventQueue.enqueue (q : JvmtiDeferredEventQueue)
    (event : JvmtiDeferredEvent) : JvmtiDeferredEventQueue :=
  let nid := q.nextId
  let node : QueueNode := { event := event, next := none }
  match q.queue_tail with
  | none =>
    { store := q.store ++ [(nid, node)], nextId := nid + 1,
      queue_head := some nid, queue_tail := some nid }
  | some t =>
    { store := setNext q.store t (some nid) ++ [(nid, node)], nextId := nid + 1,
      queue_head := q.queue_head, queue_tail := some nid }

/-- Modelled from the spec: `JvmtiDeferredEventQueue::has_events` (body not
in the header): whether the head pointer is non-null. -/
def JvmtiDeferredEventQueue.has_events (q : JvmtiDeferredEventQueue) : Bool :=
  q.queue_head.isSome

/-- Modelled from the spec: `JvmtiDeferredEventQueue::dequeue` (body not in
the header): remove the head node, advance the head to its successor (nulling
the tail as well when the queue becomes empty), free the node and return its
event, transferring ownership to the caller; an empty queue yields the
default event. -/
def JvmtiDeferredEventQueue.dequeue (q : JvmtiDeferredEventQueue) :
    JvmtiDeferredEvent × JvmtiDeferredEventQueue :=
  match q.queue_head with
  | none => (.typeNone, q)
  | some h =>
    match lookupNode q.store h with
    | none => (.typeNone, q)
    | some node =>
      let head' := node.next
      let tail' := if head'.isNone then none else q.queue_tail
      (node.event,
        { store := q.store.filter (fun p => p.1 ≠ h), nextId := q.nextId,
          queue_head := head', queue_tail := tail' })

/-- Fuel-bounded drain loop of `post`. -/
def postAux : Nat → JvmtiDeferredEventQueue → JvmtiDeferredEventQueue
  | 0, q => q
  | n + 1, q =>
    if q.has_events then postAux n (q.dequeue).2 else q

/-- Modelled from the spec: `JvmtiDeferredEventQueue::post` (body not in the
header): while events remain, dequeue each in FIFO arrival order and post it
to the environment, emptying the queue. -/
def JvmtiDeferredEventQueue.post (q : JvmtiDeferredEventQueue) (env : Nat) :
    JvmtiDeferredEventQueue :=
  postAux q.store.length q

/-- Enqueue a list of events in order. -/
def enqueueAll (q : JvmtiDeferredEventQueue) (evs : List JvmtiDeferredEvent) :
    JvmtiDeferredEventQueue :=
  evs.foldl JvmtiDeferredEventQueue.enqueue q

/-- Perform `n` consecutive dequeues, collecting the returned events. -/
def dequeueN : JvmtiDeferredEventQueue → Nat → List JvmtiDeferredEvent
  | _, 0 => []
  | q, n + 1 =>
    let (e, q') := q.dequeue
    e :: dequeueN q' n

/-- Queue operations a client can perform. -/
inductive QOp where
  | qEnqueue (e : JvmtiDeferredEvent)
  | qDequeue
  | qPost (env : Nat)
deriving DecidableEq, Repr

/-- Apply one queue operation. -/
def applyQOp (q : JvmtiDeferredEventQueue) (op : QOp) : JvmtiDeferredEventQueue :=
  match op with
  | .qEnqueue e => q.enqueue e
  | .qDequeue => (q.dequeue).2
  | .qPost env => q.post env

/-- Apply a sequence of queue operations. -/
def applyQOps (ops : List QOp) (q : JvmtiDeferredEventQueue) :
    JvmtiDeferredEventQueue :=
  ops.foldl applyQOp q

/-- The store of a straight-line chain of nodes carrying `evs`, allocated at
consecutive identities starting at `a`, each linked to the next. -/
def segStore : Nat → List JvmtiDeferredEvent → List (Nat × QueueNode)
  | _, [] => []
  | a, [e] => [(a, { event := e, next := none })]
  | a, e :: e' :: evs =>
    (a, { event := e, next := some (a + 1) }) :: segStore (a + 1) (e' :: evs)

/-- The canonical queue state holding `evs` in nodes `a, a+1, ...`. Every
state reachable from the fresh queue has this shape. -/
def segQueue (a : Nat) (evs : List JvmtiDeferredEvent) :
    JvmtiDeferredEventQueue :=
  { store := segStore a evs, nextId := a + evs.length,
    queue_head := if evs.isEmpty then none else some a,
    queue_tail := if evs.isEmpty then none else some (a + evs.length - 1) }

/-! ### Lemmas about the breakpoint registry -/

theorem JvmtiBreakpoint.equals_iff_key (a b : JvmtiBreakpoint) :
    a.equals b = true ↔ a.key = b.key := by
  simp [JvmtiBreakpoint.equals, JvmtiBreakpoint.key, Prod.ext_iff]

theorem JvmtiBreakpoint.equals_false_iff_key (a b : JvmtiBreakpoint) :
    a.equals b = false ↔ a.key ≠ b.key := by
  rw [← Bool.not_eq_true, not_iff_not.mpr (JvmtiBreakpoint.equals_iff_key a b)]

theorem find_if_neg_or_nonneg (p : α → Bool) (l : List α) :
    find_if p l = -1 ∨ 0 ≤ find_if p l := by
  induction l with
  | nil => simp [find_if]
  | cons a l ih =>
    simp only [find_if]
    by_cases h : p a
    · simp [h]
    · rcases ih with h1 | h1 <;> simp [h, h1] <;> omega

theorem find_if_eq_neg_one_iff (p : α → Bool) (l : List α) :
    find_if p l = -1 ↔ ∀ a ∈ l, p a = false := by
  induction l with
  | nil => simp [find_if]
  | cons a l ih =>
    by_cases h : p a
    · simp [find_if, h]
    · have h' : p a = false := by simp [h]
      rcases find_if_neg_or_nonneg p l with h1 | h1
      · simp only [find_if, if_neg h, h1,
          if_pos (show (-1 : Int) < 0 by norm_num), List.mem_cons, true_iff]
        intro x hx
        rcases hx with rfl | hx
        · exact h'
        · exact (ih.mp h1) x hx
      · have hlt : ¬ find_if p l < 0 := by omega
        simp only [find_if, if_neg h, if_neg hlt, List.mem_cons]
        constructor
        · intro hcontr; omega
        · intro hall
          exfalso
          have : find_if p l = -1 :=
            ih.mpr (fun x hx => hall x (Or.inr hx))
          omega

theorem find_if_nonneg_decomp (p : α → Bool) (l : List α)
    (h : 0 ≤ find_if p l) :
    ∃ l₁ b l₂, l = l₁ ++ b :: l₂ ∧ find_if p l = (l₁.length : Int) ∧
      p b = true ∧ ∀ x ∈ l₁, p x = false := by
  induction l with
  | nil => simp [find_if] at h
  | cons a l ih =>
    by_cases ha : p a
    · exact ⟨[], a, l, by simp, by simp [find_if, ha], ha, by simp⟩
    · rcases find_if_neg_or_nonneg p l with h1 | h1
      · exfalso
        simp [find_if, ha, h1] at h
      · rcases ih h1 with ⟨l₁, b, l₂, hdec, hlen, hb, hpre⟩
        refine ⟨a :: l₁, b, l₂, by simp [hdec], ?_, hb, ?_⟩
        · have hlt : ¬ find_if p l < 0 := by omega
          simp only [find_if, if_neg ha, if_neg hlt, hlen, List.length_cons]
          have h2 : ¬ ((l₁.length : Int) < 0) := by omega
          rw [if_neg h2]
          push_cast
          ring
        · intro x hx
          rcases List.mem_cons.mp hx with rfl | hx
          · exact Bool.of_not_eq_true ha
          · exact hpre x hx

theorem eraseIdx_append_cons (l₁ : List α) (b : α) (l₂ : List α) :
    (l₁ ++ b :: l₂).eraseIdx l₁.length = l₁ ++ l₂ := by
  induction l₁ with
  | nil => simp [List.eraseIdx]
  | cons a l₁ ih => simp [List.eraseIdx, ih]

theorem find_nonneg_iff (bps : JvmtiBreakpoints) (bp : JvmtiBreakpoint) :
    0 ≤ bps.find bp ↔ ∃ b ∈ bps.elements, bp.equals b = true := by
  constructor
  · intro h
    simp only [JvmtiBreakpoints.find] at h
    rcases find_if_nonneg_decomp _ _ h with ⟨l₁, b, l₂, hdec, _, hb, _⟩
    exact ⟨b, by rw [hdec]; simp, hb⟩
  · intro ⟨b, hmem, hb⟩
    rcases find_if_neg_or_nonneg (fun other_e => bp.equals other_e)
      bps.elements with h1 | h1
    · exfalso
      have := (find_if_eq_neg_one_iff _ _).mp h1 b hmem
      simp [hb] at this
    · exact h1

theorem find_neg_iff (bps : JvmtiBreakpoints) (bp : JvmtiBreakpoint) :
    bps.find bp < 0 ↔ ∀ b ∈ bps.elements, bp.equals b = false := by
  constructor
  · intro h
    rcases find_if_neg_or_nonneg (fun other_e => bp.equals other_e)
      bps.elements with h1 | h1
    · exact (find_if_eq_neg_one_iff _ _).mp h1
    · exact absurd h (by unfold JvmtiBreakpoints.find; omega)
  · intro h
    have : bps.find bp = -1 := (find_if_eq_neg_one_iff _ _).mpr h
    omega

theorem JvmtiBreakpoint.equals_comm (a b : JvmtiBreakpoint) :
    a.equals b = b.equals a := by
  by_cases h : a.key = b.key
  · rw [(JvmtiBreakpoint.equals_iff_key a b).mpr h,
      (JvmtiBreakpoint.equals_iff_key b a).mpr h.symm]
  · rw [(JvmtiBreakpoint.equals_false_iff_key a b).mpr h,
      (JvmtiBreakpoint.equals_false_iff_key b a).mpr (Ne.symm h)]

theorem set_keys (bps : JvmtiBreakpoints) (bp : JvmtiBreakpoint) :
    ((bps.set bp).2.elements.map JvmtiBreakpoint.key).toFinset =
      insert bp.key ((bps.elements.map JvmtiBreakpoint.key).toFinset) := by
  unfold JvmtiBreakpoints.set
  by_cases h : bps.find bp ≥ 0
  · rw [if_pos h]
    rcases (find_nonneg_iff bps bp).mp h with ⟨b, hmem, hb⟩
    have hk : bp.key = b.key := (JvmtiBreakpoint.equals_iff_key bp b).mp hb
    have hm : bp.key ∈ (bps.elements.map JvmtiBreakpoint.key).toFinset := by
      simp only [List.mem_toFinset, List.mem_map]
      exact ⟨b, hmem, hk.symm⟩
    exact (Finset.insert_eq_self.mpr hm).symm
  · rw [if_neg h]
    ext k
    simp [JvmtiBreakpoints.append, or_comm]

theorem clear_keys (bps : JvmtiBreakpoints) (bp : JvmtiBreakpoint)
    (hinv : BpInv bps) :
    ((bps.clear bp).2.elements.map JvmtiBreakpoint.key).toFinset =
      ((bps.elements.map JvmtiBreakpoint.key).toFinset).erase bp.key := by
  by_cases h : bps.find bp < 0
  · simp only [JvmtiBreakpoints.clear, if_pos h]
    have hall := (find_neg_iff bps bp).mp h
    have hnot : bp.key ∉ (bps.elements.map JvmtiBreakpoint.key).toFinset := by
      simp only [List.mem_toFinset, List.mem_map]
      rintro ⟨b, hmem, hk⟩
      have := (JvmtiBreakpoint.equals_iff_key bp b).mpr hk.symm
      rw [hall b hmem] at this
      exact Bool.false_ne_true this
    exact (Finset.erase_eq_of_not_mem hnot).symm
  · have h' : 0 ≤ bps.find bp := by omega
    simp only [JvmtiBreakpoints.clear, if_neg h, JvmtiBreakpoints.removeAt]
    simp only [JvmtiBreakpoints.find] at h' ⊢
    rcases find_if_nonneg_decomp _ _ h' with ⟨l₁, b, l₂, hdec, hlen, hb, hpre⟩
    have hkb : b.key = bp.key :=
      ((JvmtiBreakpoint.equals_iff_key bp b).mp hb).symm
    have h₁ : ∀ x ∈ l₁, x.key ≠ bp.key := by
      intro x hx he
      have := (JvmtiBreakpoint.equals_iff_key bp x).mpr he.symm
      rw [hpre x hx] at this
      exact Bool.false_ne_true this
    unfold BpInv at hinv
    rw [hdec] at hinv
    have h₂ : ∀ x ∈ l₂, x.key ≠ bp.key := by
      intro x hx he
      have hbx : b.equals x = false :=
        ((List.pairwise_cons.mp (List.pairwise_append.mp hinv).2.1).1) x hx
      have := (JvmtiBreakpoint.equals_iff_key b x).mpr (hkb.trans he.symm)
      rw [hbx] at this
      exact Bool.false_ne_true this
    rw [hlen, hdec]
    have htn : ((l₁.length : Int)).toNat = l₁.length := Int.toNat_natCast l₁.length
    rw [htn, eraseIdx_append_cons]
    ext k
    simp only [List.mem_toFinset, List.map_append, List.mem_append,
      List.mem_map, Finset.mem_erase, List.map_cons, List.mem_cons]
    constructor
    · rintro (⟨x, hx, rfl⟩ | ⟨x, hx, rfl⟩)
      · exact ⟨h₁ x hx, Or.inl ⟨x, hx, rfl⟩⟩
      · exact ⟨h₂ x hx, Or.inr (Or.inr ⟨x, hx, rfl⟩)⟩
    · rintro ⟨hne, (⟨x, hx, rfl⟩ | hbk | ⟨x, hx, rfl⟩)⟩
      · exact Or.inl ⟨x, hx, rfl⟩
      · exact absurd (hbk.trans hkb) hne
      · exact Or.inr ⟨x, hx, rfl⟩

theorem BpInv_set (bps : JvmtiBreakpoints) (bp : JvmtiBreakpoint)
    (hinv : BpInv bps) : BpInv (bps.set bp).2 := by
  unfold JvmtiBreakpoints.set
  by_cases h : bps.find bp ≥ 0
  · rw [if_pos h]; exact hinv
  · rw [if_neg h]
    have hall := (find_neg_iff bps bp).mp (by omega)
    unfold BpInv JvmtiBreakpoints.append at *
    rw [List.pairwise_append]
    refine ⟨hinv, List.pairwise_singleton _ _, ?_⟩
    intro a ha x hx
    rw [List.mem_singleton] at hx
    subst hx
    rw [JvmtiBreakpoint.equals_comm]
    exact hall a ha

theorem BpInv_clear (bps : JvmtiBreakpoints) (bp : JvmtiBreakpoint)
    (hinv : BpInv bps) : BpInv (bps.clear bp).2 := by
  by_cases h : bps.find bp < 0
  · simp only [JvmtiBreakpoints.clear, if_pos h]; exact hinv
  · simp only [JvmtiBreakpoints.clear, if_neg h, JvmtiBreakpoints.removeAt]
    exact List.Pairwise.sublist (List.eraseIdx_sublist _ _) hinv

theorem BpInv_clearall (bps : JvmtiBreakpoints) (k : Nat)
    (hinv : BpInv bps) : BpInv (bps.clearall_in_class_at_safepoint k) := by
  unfold BpInv JvmtiBreakpoints.clearall_in_class_at_safepoint at *
  exact List.Pairwise.sublist (List.filter_sublist _) hinv

theorem BpInv_applyRegOp (bps : JvmtiBreakpoints) (op : RegOp)
    (hinv : BpInv bps) : BpInv (applyRegOp bps op) := by
  cases op with
  | rSet bp => exact BpInv_set bps bp hinv
  | rClear bp => exact BpInv_clear bps bp hinv
  | rClearAll k => exact BpInv_clearall bps k hinv

theorem BpInv_applyRegOps (ops : List RegOp) :
    ∀ bps : JvmtiBreakpoints, BpInv bps → BpInv (applyRegOps ops bps) := by
  induction ops with
  | nil => intro bps hinv; exact hinv
  | cons op ops ih =>
    intro bps hinv
    exact ih (applyRegOp bps op) (BpInv_applyRegOp bps op hinv)

/-! ### Lemmas about the deferred-event queue -/

theorem segStore_ids (evs : List JvmtiDeferredEvent) :
    ∀ a : Nat, ∀ p ∈ segStore a evs, a ≤ p.1 ∧ p.1 < a + evs.length := by
  induction evs with
  | nil => intro a p hp; simp [segStore] at hp
  | cons e tl ih =>
    intro a p hp
    cases tl with
    | nil =>
      simp only [segStore, List.mem_singleton] at hp
      subst hp
      simp
    | cons e' tl' =>
      simp only [segStore, List.mem_cons] at hp
      rcases hp with rfl | hp
      · simp
      · have := ih (a + 1) p hp
        simp only [List.length_cons] at this ⊢
        omega

theorem lookupNode_segStore_head (a : Nat) (e : JvmtiDeferredEvent)
    (evs : List JvmtiDeferredEvent) :
    lookupNode (segStore a (e :: evs)) a =
      some { event := e,
             next := if evs.isEmpty then none else some (a + 1) } := by
  cases evs with
  | nil => simp [segStore, lookupNode, List.find?]
  | cons e' tl => simp [segStore, lookupNode, List.find?]

theorem filter_segStore (a : Nat) (e : JvmtiDeferredEvent)
    (evs : List JvmtiDeferredEvent) :
    (segStore a (e :: evs)).filter (fun p => p.1 ≠ a) = segStore (a + 1) evs := by
  have hrest : ∀ p ∈ segStore (a + 1) evs, p.1 ≠ a := by
    intro p hp
    have := segStore_ids evs (a + 1) p hp
    omega
  cases evs with
  | nil => simp [segStore]
  | cons e' tl =>
    simp only [segStore, List.filter_cons]
    rw [if_neg (by simp)]
    exact List.filter_eq_self.mpr (fun p hp => by
      simpa using hrest p hp)

theorem segStore_append_last (evs : List JvmtiDeferredEvent)
    (x : JvmtiDeferredEvent) :
    ∀ a : Nat, evs ≠ [] →
      segStore a (evs ++ [x]) =
        setNext (segStore a evs) (a + evs.length - 1) (some (a + evs.length)) ++
          [(a + evs.length, { event := x, next := none })] := by
  induction evs with
  | nil => intro a h; exact absurd rfl h
  | cons e tl ih =>
    intro a _
    cases tl with
    | nil => simp [segStore, setNext]
    | cons e' tl' =>
      have harith : a + (e :: e' :: tl').length - 1 = (a + 1) + (e' :: tl').length - 1 := by
        simp only [List.length_cons]; omega
      have hne : a ≠ a + (e :: e' :: tl').length - 1 := by
        simp only [List.length_cons]; omega
      calc segStore a ((e :: e' :: tl') ++ [x])
          = (a, { event := e, next := some (a + 1) }) ::
              segStore (a + 1) ((e' :: tl') ++ [x]) := by
            simp [segStore]
        _ = (a, { event := e, next := some (a + 1) }) ::
              (setNext (segStore (a + 1) (e' :: tl'))
                ((a + 1) + (e' :: tl').length - 1)
                (some ((a + 1) + (e' :: tl').length)) ++
                [((a + 1) + (e' :: tl').length, { event := x, next := none })]) := by
            rw [ih (a + 1) (by simp)]
        _ = setNext (segStore a (e :: e' :: tl')) (a + (e :: e' :: tl').length - 1)
              (some (a + (e :: e' :: tl').length)) ++
              [(a + (e :: e' :: tl').length, { event := x, next := none })] := by
            simp only [segStore, setNext, List.map_cons, List.cons_append,
              List.length_cons]
            rw [if_neg (by omega : ¬ (a = a + (tl'.length + 1 + 1) - 1))]
            rw [show a + 1 + (tl'.length + 1) = a + (tl'.length + 1 + 1) from by
              omega]

theorem enqueue_segQueue (a : Nat) (evs : List JvmtiDeferredEvent)
    (x : JvmtiDeferredEvent) :
    (segQueue a evs).enqueue x = segQueue a (evs ++ [x]) := by
  cases evs with
  | nil => simp [segQueue, JvmtiDeferredEventQueue.enqueue, segStore]
  | cons e tl =>
    simp only [segQueue, JvmtiDeferredEventQueue.enqueue, List.isEmpty_cons,
      List.length_cons, List.length_append, List.length_singleton,
      Bool.false_eq_true, if_false]
    rw [segStore_append_last (e :: tl) x a (by simp)]
    simp only [List.length_cons, List.cons_append, List.isEmpty_cons,
      Bool.false_eq_true, if_false, List.length_nil,
      JvmtiDeferredEventQueue.mk.injEq]
    simp only [Option.some.injEq, true_and, and_true]
    omega

theorem dequeue_segQueue_nil (a : Nat) :
    (segQueue a []).dequeue = (.typeNone, segQueue a []) := by
  simp [segQueue, JvmtiDeferredEventQueue.dequeue, segStore]

theorem dequeue_segQueue_cons (a : Nat) (e : JvmtiDeferredEvent)
    (evs : List JvmtiDeferredEvent) :
    (segQueue a (e :: evs)).dequeue = (e, segQueue (a + 1) evs) := by
  cases evs with
  | nil =>
    simp [JvmtiDeferredEventQueue.dequeue, segQueue, segStore, lookupNode,
      List.find?]
  | cons e' tl =>
    have hlk := lookupNode_segStore_head a e (e' :: tl)
    simp only [List.isEmpty_cons, Bool.false_eq_true, if_false] at hlk
    simp only [JvmtiDeferredEventQueue.dequeue, segQueue, List.isEmpty_cons,
      Bool.false_eq_true, if_false, hlk, Option.isSome_some,
      filter_segStore a e (e' :: tl), List.length_cons]
    simp only [Option.isNone_some, Bool.false_eq_true, if_false,
      Prod.mk.injEq, JvmtiDeferredEventQueue.mk.injEq]
    simp only [Option.some.injEq, true_and, and_true]
    omega

theorem enqueueAll_segQueue (evs : List JvmtiDeferredEvent) :
    ∀ (a : Nat) (evs0 : List JvmtiDeferredEvent),
      enqueueAll (segQueue a evs0) evs = segQueue a (evs0 ++ evs) := by
  induction evs with
  | nil => intro a evs0; simp [enqueueAll]
  | cons e tl ih =>
    intro a evs0
    have h1 : enqueueAll (segQueue a evs0) (e :: tl) =
        enqueueAll ((segQueue a evs0).enqueue e) tl := rfl
    rw [h1, enqueue_segQueue, ih, List.append_assoc, List.singleton_append]

theorem dequeueN_segQueue (evs : List JvmtiDeferredEvent) :
    ∀ a : Nat, dequeueN (segQueue a evs) evs.length = evs := by
  induction evs with
  | nil => intro a; rfl
  | cons e tl ih =>
    intro a
    simp only [List.length_cons, dequeueN, dequeue_segQueue_cons, ih (a + 1)]

theorem postAux_segQueue (n : Nat) :
    ∀ (a : Nat) (evs : List JvmtiDeferredEvent),
      ∃ a' evs', postAux n (segQueue a evs) = segQueue a' evs' := by
  induction n with
  | zero => intro a evs; exact ⟨a, evs, rfl⟩
  | succ n ih =>
    intro a evs
    cases evs with
    | nil =>
      refine ⟨a, [], ?_⟩
      simp [postAux, JvmtiDeferredEventQueue.has_events, segQueue]
    | cons e tl =>
      have hhe : (segQueue a (e :: tl)).has_events = true := by
        simp [JvmtiDeferredEventQueue.has_events, segQueue]
      simp only [postAux, hhe, if_true, dequeue_segQueue_cons]
      exact ih (a + 1) tl

theorem applyQOp_segQueue (op : QOp) (a : Nat)
    (evs : List JvmtiDeferredEvent) :
    ∃ a' evs', applyQOp (segQueue a evs) op = segQueue a' evs' := by
  cases op with
  | qEnqueue e => exact ⟨a, evs ++ [e], enqueue_segQueue a evs e⟩
  | qDequeue =>
    cases evs with
    | nil =>
      refine ⟨a, [], ?_⟩
      show ((segQueue a []).dequeue).2 = segQueue a []
      rw [dequeue_segQueue_nil]
    | cons e tl =>
      refine ⟨a + 1, tl, ?_⟩
      show ((segQueue a (e :: tl)).dequeue).2 = segQueue (a + 1) tl
      rw [dequeue_segQueue_cons]
  | qPost env => exact postAux_segQueue _ a evs

theorem applyQOps_segQueue (ops : List QOp) :
    ∀ (a : Nat) (evs : List JvmtiDeferredEvent),
      ∃ a' evs', applyQOps ops (segQueue a evs) = segQueue a' evs' := by
  induction ops with
  | nil => intro a evs; exact ⟨a, evs, rfl⟩
  | cons op ops ih =>
    intro a evs
    obtain ⟨a1, evs1, h1⟩ := applyQOp_segQueue op a evs
    obtain ⟨a2, evs2, h2⟩ := ih a1 evs1
    refine ⟨a2, evs2, ?_⟩
    calc applyQOps (op :: ops) (segQueue a evs)
        = applyQOps ops (applyQOp (segQueue a evs) op) := rfl
      _ = applyQOps ops (segQueue a1 evs1) := by rw [h1]
      _ = segQueue a2 evs2 := h2

theorem emptyQueue_eq_segQueue : emptyQueue = segQueue 0 [] := rfl

theorem BpInv_applyBpOp (bps : JvmtiBreakpoints) (op : BpOp)
    (hinv : BpInv bps) : BpInv (applyBpOp bps op) := by
  cases op with
  | setOp bp => exact BpInv_set bps bp hinv
  | clearOp bp => exact BpInv_clear bps bp hinv

theorem applyBpOp_keys (bps : JvmtiBreakpoints) (op : BpOp)
    (hinv : BpInv bps) :
    ((applyBpOp bps op).elements.map JvmtiBreakpoint.key).toFinset =
      replayBpOp ((bps.elements.map JvmtiBreakpoint.key).toFinset) op := by
  cases op with
  | setOp bp => exact set_keys bps bp
  | clearOp bp => exact clear_keys bps bp hinv

theorem applyBpOps_keys (ops : List BpOp) :
    ∀ bps : JvmtiBreakpoints, BpInv bps →
      ((applyBpOps ops bps).elements.map JvmtiBreakpoint.key).toFinset =
        replayBpOps ops ((bps.elements.map JvmtiBreakpoint.key).toFinset) := by
  induction ops with
  | nil => intro bps _; rfl
  | cons op ops ih =>
    intro bps hinv
    have step := applyBpOp_keys bps op hinv
    calc ((applyBpOps (op :: ops) bps).elements.map JvmtiBreakpoint.key).toFinset
        = ((applyBpOps ops (applyBpOp bps op)).elements.map
            JvmtiBreakpoint.key).toFinset := rfl
      _ = replayBpOps ops (((applyBpOp bps op).elements.map
            JvmtiBreakpoint.key).toFinset) :=
          ih (applyBpOp bps op) (BpInv_applyBpOp bps op hinv)
      _ = replayBpOps ops (replayBpOp
            ((bps.elements.map JvmtiBreakpoint.key).toFinset) op) := by rw [step]
      _ = replayBpOps (op :: ops)
            ((bps.elements.map JvmtiBreakpoint.key).toFinset) := rfl


/-! ### Lemmas about frame-local access -/

theorem check_slot_type_lvt_eq_some (env : TypeEnv) (fr : Frame) (i : Nat)
    (ty : BasicType) (v : JValue) (slot : Slot)
    (hs : fr.slots.get? i = some slot) :
    check_slot_type_lvt env fr i ty v = checkDecl env slot.decl ty v := by
  unfold check_slot_type_lvt
  rw [hs]

theorem setLocal_eq_some (env : TypeEnv) (fr : Frame) (i : Nat)
    (ty : BasicType) (v : JValue) (slot : Slot)
    (hs : fr.slots.get? i = some slot) :
    setLocal env fr i ty v =
      if check_slot_type_lvt env fr i ty v = .NONE then
        (.NONE, { slots := fr.slots.set i { slot with value := v } })
      else (check_slot_type_lvt env fr i ty v, fr) := by
  unfold setLocal
  rw [hs]

theorem setLocal_eq_none (env : TypeEnv) (fr : Frame) (i : Nat)
    (ty : BasicType) (v : JValue) (hs : fr.slots.get? i = none) :
    setLocal env fr i ty v = (.INVALID_SLOT, fr) := by
  unfold setLocal
  rw [hs]

theorem getLocal_eq_some (fr : Frame) (i : Nat) (ty : BasicType) (slot : Slot)
    (hs : fr.slots.get? i = some slot) :
    getLocal fr i ty =
      if slot.decl.kind = ty then (.NONE, slot.value)
      else (.TYPE_MISMATCH, DEFAULT_VALUE) := by
  unfold getLocal
  rw [hs]

theorem check_NONE_kind (env : TypeEnv) (fr : Frame) (i : Nat) (ty : BasicType)
    (v : JValue) (slot : Slot) (hs : fr.slots.get? i = some slot)
    (h : check_slot_type_lvt env fr i ty v = .NONE) : slot.decl.kind = ty := by
  rw [check_slot_type_lvt_eq_some env fr i ty v slot hs] at h
  cases hdecl : slot.decl with
  | primDecl t =>
    rw [hdecl] at h
    simp only [checkDecl] at h
    by_cases hc : ty = t ∧ v.kind = t
    · simp [SlotDecl.kind, hc.1]
    · rw [if_neg hc] at h
      exact absurd h (by decide)
  | refDecl sig =>
    rw [hdecl] at h
    simp only [checkDecl] at h
    by_cases hty : ty = BasicType.T_OBJECT
    · simp [SlotDecl.kind, hty]
    · rw [if_pos hty] at h
      exact absurd h (by decide)

/-! ### The claims -/

/-- C1: for every sequence of SET and CLEAR operations starting from an empty
registry, the registry's final content, viewed through (method identity, byte
offset) equality, equals the result of replaying the same sequence of
insertions and removals on an ordinary mathematical set of (method, offset)
pairs. (Proved for all sequences, in particular those on distinct pairs.) -/
theorem C1_registry_refines_replay_on_set (ops : List BpOp) :
    ((applyBpOps ops emptyBreakpoints).elements.map
      JvmtiBreakpoint.key).toFinset = replayBpOps ops ∅ :=
  applyBpOps_keys ops emptyBreakpoints List.Pairwise.nil

/-- C2: SET of a breakpoint equal to one already present returns the
"not changed" status and leaves the registry — hence its content and size —
unchanged. -/
theorem C2_set_present_not_changed (bps : JvmtiBreakpoints)
    (bp : JvmtiBreakpoint)
    (h : ∃ b ∈ bps.elements, bp.equals b = true) :
    bps.set bp = (.notChanged, bps) := by
  unfold JvmtiBreakpoints.set
  rw [if_pos ((find_nonneg_iff bps bp).mpr h)]

theorem C2_set_present_not_changed_witness :
    (∃ b ∈ (JvmtiBreakpoints.mk
        [JvmtiBreakpoint.mk (Method.mk 1 2) 10 1]).elements,
      (JvmtiBreakpoint.mk (Method.mk 1 2) 10 1).equals b = true) ∧
    (JvmtiBreakpoints.mk [JvmtiBreakpoint.mk (Method.mk 1 2) 10 1]).set
        (JvmtiBreakpoint.mk (Method.mk 1 2) 10 1) =
      (.notChanged,
        JvmtiBreakpoints.mk [JvmtiBreakpoint.mk (Method.mk 1 2) 10 1]) :=
  ⟨by decide, C2_set_present_not_changed _ _ (by decide)⟩

/-- C3: CLEAR of a breakpoint with no equal breakpoint present returns the
"not found" status and leaves the registry unchanged: no element is added or
removed. -/
theorem C3_clear_absent_not_found (bps : JvmtiBreakpoints)
    (bp : JvmtiBreakpoint)
    (h : ∀ b ∈ bps.elements, bp.equals b = false) :
    bps.clear bp = (.notFound, bps) := by
  simp only [JvmtiBreakpoints.clear]
  rw [if_pos ((find_neg_iff bps bp).mpr h)]

theorem C3_clear_absent_not_found_witness :
    (∀ b ∈ (JvmtiBreakpoints.mk
        [JvmtiBreakpoint.mk (Method.mk 1 2) 10 1]).elements,
      (JvmtiBreakpoint.mk (Method.mk 1 2) 20 1).equals b = false) ∧
    (JvmtiBreakpoints.mk [JvmtiBreakpoint.mk (Method.mk 1 2) 10 1]).clear
        (JvmtiBreakpoint.mk (Method.mk 1 2) 20 1) =
      (.notFound,
        JvmtiBreakpoints.mk [JvmtiBreakpoint.mk (Method.mk 1 2) 10 1]) :=
  ⟨by decide, C3_clear_absent_not_found _ _ (by decide)⟩

/-- C4: `clearall_in_class_at_safepoint C` removes exactly the breakpoints
whose owning method belongs to class `C`: a breakpoint is in the resulting
registry iff it was in the registry before and its method's class is not
`C`. -/
theorem C4_clearall_in_class_exact (bps : JvmtiBreakpoints) (C : Nat)
    (bp : JvmtiBreakpoint) :
    bp ∈ (bps.clearall_in_class_at_safepoint C).elements ↔
      bp ∈ bps.elements ∧ bp.method.klass ≠ C := by
  simp [JvmtiBreakpoints.clearall_in_class_at_safepoint, List.mem_filter]

/-- C9: starting from the empty registry, after any sequence of set, clear
and clearall-in-class operations the registry never contains two breakpoints
that compare equal. -/
theorem C9_no_duplicates_invariant (ops : List RegOp) :
    ((applyRegOps ops emptyBreakpoints).elements).Pairwise
      (fun a b => a.equals b = false) :=
  BpInv_applyRegOps ops emptyBreakpoints List.Pairwise.nil

/-- C5: a frame-local write of a reference value whose runtime class is not
assignment-compatible with the slot's verifier-declared type (in particular
when the declared type fails to resolve) completes with the invalid-class
error and leaves the frame — hence the slot's prior value — unchanged. -/
theorem C5_incompatible_reference_write_rejected (env : TypeEnv) (fr : Frame)
    (i : Nat) (slot : Slot) (sig : String) (cls oid : Nat)
    (hs : fr.slots.get? i = some slot) (hd : slot.decl = .refDecl sig)
    (hna : is_assignable env sig cls = false) :
    setLocal env fr i .T_OBJECT (.jObject cls oid) = (.INVALID_CLASS, fr) := by
  have hc : check_slot_type_lvt env fr i .T_OBJECT (.jObject cls oid) =
      .INVALID_CLASS := by
    rw [check_slot_type_lvt_eq_some env fr i _ _ slot hs, hd]
    simp [checkDecl, hna]
  rw [setLocal_eq_some env fr i _ _ slot hs, hc]
  rw [if_neg (by decide : ¬ (JvmtiError.INVALID_CLASS = JvmtiError.NONE))]

theorem C5_incompatible_reference_write_rejected_witness :
    ((Frame.mk [Slot.mk (.refDecl "LFoo;") .jNull]).slots.get? 0 =
        some (Slot.mk (.refDecl "LFoo;") .jNull)) ∧
    ((Slot.mk (.refDecl "LFoo;") .jNull).decl = .refDecl "LFoo;") ∧
    (is_assignable (TypeEnv.mk (fun _ => none) (fun _ _ => false))
        "LFoo;" 5 = false) ∧
    setLocal (TypeEnv.mk (fun _ => none) (fun _ _ => false))
        (Frame.mk [Slot.mk (.refDecl "LFoo;") .jNull]) 0 .T_OBJECT
        (.jObject 5 7) =
      (.INVALID_CLASS, Frame.mk [Slot.mk (.refDecl "LFoo;") .jNull]) :=
  ⟨rfl, rfl, rfl,
    C5_incompatible_reference_write_rejected
      (TypeEnv.mk (fun _ => none) (fun _ _ => false))
      (Frame.mk [Slot.mk (.refDecl "LFoo;") .jNull]) 0
      (Slot.mk (.refDecl "LFoo;") .jNull) "LFoo;" 5 7 rfl rfl rfl⟩

/-- C6: after a successful frame-local write of value `v` to slot `i`, a
frame-local read of slot `i` of the resulting frame (no intervening
mutation) succeeds and returns `v`. -/
theorem C6_read_after_write (env : TypeEnv) (fr : Frame) (i : Nat)
    (ty : BasicType) (v : JValue) (fr' : Frame)
    (h : setLocal env fr i ty v = (.NONE, fr')) :
    getLocal fr' i ty = (.NONE, v) := by
  cases hs : fr.slots.get? i with
  | none =>
    rw [setLocal_eq_none env fr i ty v hs] at h
    simp at h
  | some slot =>
    rw [setLocal_eq_some env fr i ty v slot hs] at h
    by_cases he : check_slot_type_lvt env fr i ty v = .NONE
    · rw [if_pos he] at h
      have hfr : fr' = { slots := fr.slots.set i { slot with value := v } } :=
        (congrArg Prod.snd h).symm
      subst hfr
      have hlen : i < fr.slots.length := by
        by_contra hub
        rw [List.get?_eq_none.mpr (Nat.le_of_not_lt hub)] at hs
        exact Option.noConfusion hs
      have hget : ({ slots := fr.slots.set i { slot with value := v } } :
          Frame).slots.get? i = some { slot with value := v } :=
        List.get?_set_eq_of_lt _ hlen
      have hk : ({ slot with value := v } : Slot).decl.kind = ty :=
        check_NONE_kind env fr i ty v slot hs he
      rw [getLocal_eq_some _ i ty _ hget, if_pos hk]
    · rw [if_neg he] at h
      exact absurd (congrArg Prod.fst h) he

theorem C6_read_after_write_witness :
    (setLocal (TypeEnv.mk (fun _ => some 0) (fun _ _ => true))
        (Frame.mk [Slot.mk (.primDecl .T_INT) (.jInt 0)]) 0 .T_INT
        (.jInt 42) =
      (.NONE, Frame.mk [Slot.mk (.primDecl .T_INT) (.jInt 42)])) ∧
    getLocal (Frame.mk [Slot.mk (.primDecl .T_INT) (.jInt 42)]) 0 .T_INT =
      (.NONE, .jInt 42) :=
  ⟨rfl,
    C6_read_after_write (TypeEnv.mk (fun _ => some 0) (fun _ _ => true))
      (Frame.mk [Slot.mk (.primDecl .T_INT) (.jInt 0)]) 0 .T_INT (.jInt 42)
      (Frame.mk [Slot.mk (.primDecl .T_INT) (.jInt 42)]) rfl⟩

/-- C7: an enqueue immediately followed by a dequeue returns the event just
enqueued, equal in kind and in every payload field; and N events enqueued in
order onto the fresh queue are returned by N consecutive dequeues in the same
order (FIFO round-trip). -/
theorem C7_fifo_round_trip (evs : List JvmtiDeferredEvent) :
    dequeueN (enqueueAll emptyQueue evs) evs.length = evs ∧
      ∀ e : JvmtiDeferredEvent, ((emptyQueue.enqueue e).dequeue).1 = e := by
  constructor
  · rw [emptyQueue_eq_segQueue, enqueueAll_segQueue evs 0 [], List.nil_append,
      dequeueN_segQueue evs 0]
  · intro e
    have h1 : emptyQueue.enqueue e = segQueue 0 [e] := by
      rw [emptyQueue_eq_segQueue]
      exact enqueue_segQueue 0 [] e
    rw [h1, dequeue_segQueue_cons]

/-- C8: a compiled-method-unload deferred event carries at post time exactly
the method identifier and code starting address captured at construction,
and posting it never dereferences the code object: the posted callback is
the same for every state of the code heap, in particular after the code
object has been reclaimed. -/
theorem C8_unload_event_posts_captured_values (id code : Nat)
    (heap heap' : Nat → Option Nat) :
    postEvent heap (compiled_method_unload_event id code) =
        some (.cbCompiledMethodUnload id code) ∧
      postEvent heap (compiled_method_unload_event id code) =
        postEvent heap' (compiled_method_unload_event id code) :=
  ⟨rfl, rfl⟩

/-- C10: a freshly constructed deferred-event queue is empty (head and tail
both null), and in every state reachable by enqueue, dequeue and post
operations the head pointer is null iff the tail pointer is null, and
`has_events` returns true exactly when the head is non-null. -/
theorem C10_queue_structural_invariant :
    emptyQueue.queue_head = none ∧ emptyQueue.queue_tail = none ∧
      ∀ ops : List QOp,
        ((applyQOps ops emptyQueue).queue_head = none ↔
          (applyQOps ops emptyQueue).queue_tail = none) ∧
        ((applyQOps ops emptyQueue).has_events = true ↔
          ¬ (applyQOps ops emptyQueue).queue_head = none) := by
  refine ⟨rfl, rfl, fun ops => ?_⟩
  obtain ⟨a, evs, heq⟩ := applyQOps_segQueue ops 0 []
  rw [emptyQueue_eq_segQueue, heq]
  cases evs with
  | nil => simp [segQueue, JvmtiDeferredEventQueue.has_events]
  | cons e tl => simp [segQueue, JvmtiDeferredEventQueue.has_events]
